import Mathlib

/-!
Verification of the ttm streaming columnar data model (`src/ttm/types.py`):
a shallow embedding of the caching line reader (`CachingFileReader`), the
tabular view with column stripping (`InputFile`), the column accessor with
filters (`Column`), and the dense/sparse matrix materialization, together
with theorems settling the behavioural claims about them.
-/

namespace Ttm

/-- Error taxonomy of `ttm.types`: the generic `Exception` used for the
usage violation in `CachingFileReader.__iter__`, `ExpectedRuntimeError`
(empty input), `ColumnNotFound` (carrying the missing column name),
`EmptyColumnError`, plus the Python builtin `StopIteration`, `IndexError`
and `ZeroDivisionError` conditions the code can surface. -/
inductive TtmError where
  | exception (msg : String)
  | expectedRuntimeError (msg : String)
  | columnNotFound (col : String)
  | emptyColumnError
  | stopIteration
  | indexError
  | zeroDivision
  deriving DecidableEq

/-- Python `s.rstrip(c)` for a single character `c`: drop every trailing
occurrence of `c`. -/
def rstripChar (c : Char) (s : String) : String :=
  String.mk ((s.data.reverse.dropWhile (fun d => d == c)).reverse)

/-- The per-line normalization `line.rstrip('\n').rstrip('\r')` that
`CachingFileReader.__iter__` applies to every line read from the
underlying stream. -/
def stripLine (s : String) : String :=
  rstripChar '\r' (rstripChar '\n' s)

/-- Python `line.split('\t')` on the character list: split at every tab,
never collapsing separators; the empty string yields one empty segment. -/
def splitTabChars : List Char → List (List Char)
  | [] => [[]]
  | c :: cs =>
    match splitTabChars cs, c == '\t' with
    | rest, true => [] :: rest
    | [], false => [[c]]
    | r :: rs, false => (c :: r) :: rs

/-- Python `line.split('\t')`. -/
def splitTab (s : String) : List String :=
  (splitTabChars s.data).map String.mk

/-- Python `'\t'.join(cells)`. -/
def joinTab : List String → String
  | [] => ""
  | [s] => s
  | s :: rest => s ++ "\t" ++ joinTab rest

/-- State of a `CachingFileReader`. `source` models the full line content
of the underlying resource and `streamPos` the read position of the live
stream (the piece of generator state that matters for sequencing);
`cache`, `cache_complete`, `file_accessed` and `regular_file` are the
attributes set up in `__init__` (`regular_file` records the seekability
probe: the reader is not stdin and the stream is seekable). -/
structure CachingFileReader where
  source : List String
  regular_file : Bool
  cache : List String
  cache_complete : Bool
  file_accessed : Bool
  streamPos : Nat
  deriving DecidableEq

/-- A reader exactly as `CachingFileReader.__init__` leaves it: empty
cache, both flags false, nothing consumed from the stream. -/
def CachingFileReader.fresh (source : List String) (regular : Bool) : CachingFileReader :=
  { source := source, regular_file := regular, cache := [], cache_complete := false,
    file_accessed := false, streamPos := 0 }

/-- Outcome of starting one `__iter__` pass: either a replay pass that
will yield a fixed, already-determined list of lines (the seekable
re-read, or the completed cache), or the unique recording pass over the
live stream. -/
inductive IterStart where
  | replay (lines : List String)
  | recording
  deriving DecidableEq

/-- Message of the usage-violation `Exception` in
`CachingFileReader.__iter__`. -/
def usageMsg : String :=
  "Second iteration over input started before cache was fully populated during first one"

/-- Branch structure of `CachingFileReader.__iter__` up to its first
yield: a seekable regular file is re-opened and streamed (always the same
stripped lines); a completed cache is replayed; otherwise, if the stream
was never accessed, this call becomes the recording pass (setting
`file_accessed`); otherwise the usage-violation `Exception` is raised. -/
def iterStart (r : CachingFileReader) : Except TtmError (IterStart × CachingFileReader) :=
  if r.regular_file then
    .ok (.replay (r.source.map stripLine), r)
  else if r.cache_complete then
    .ok (.replay r.cache, r)
  else if !r.file_accessed then
    .ok (.recording, { r with file_accessed := true })
  else
    .error (.exception usageMsg)

/-- One `next()` on the recording-pass generator: while the live stream
has a line left, strip it, append it to the cache and yield it; once the
stream is exhausted the `for` loop ends and `cache_complete` is set. -/
def recStep (r : CachingFileReader) : CachingFileReader :=
  match r.source[r.streamPos]? with
  | some line => { r with cache := r.cache ++ [stripLine line], streamPos := r.streamPos + 1 }
  | none => { r with cache_complete := true }

/-- Iterated `recStep`: `n` consumer steps of the recording pass. -/
def recSteps : Nat → CachingFileReader → CachingFileReader
  | 0, r => r
  | n + 1, r => recStep (recSteps n r)

/-- Reader state right after the recording pass over a fresh unseekable
resource has started (the `file_accessed` flag is set before the first
line is yielded). -/
def recStarted (source : List String) : CachingFileReader :=
  { CachingFileReader.fresh source false with file_accessed := true }

/-- Reader state after the recording pass over a fresh unseekable
resource has been fully drained: the whole stream is recorded, stripped,
and the cache is marked complete. -/
def recDone (source : List String) : CachingFileReader :=
  { source := source, regular_file := false, cache := source.map stripLine,
    cache_complete := true, file_accessed := true, streamPos := source.length }

/-- Run one `iterate()` call to exhaustion: a replay pass yields its
fixed list and leaves the state alone; the recording pass performs
`next()` until `StopIteration` — one `recStep` per remaining stream line
plus the final one that marks the cache complete — and yields exactly
the lines it appended to the cache. -/
def drainPass (r : CachingFileReader) : Except TtmError (List String × CachingFileReader) :=
  match iterStart r with
  | .error e => .error e
  | .ok (.replay ls, r1) => .ok (ls, r1)
  | .ok (.recording, r1) =>
    let r2 := recSteps (r1.source.length - r1.streamPos + 1) r1
    .ok (r2.cache.drop r1.cache.length, r2)

/-- Chain `n` complete `iterate()` calls, collecting the line sequence
each one yielded. -/
def drainPasses : Nat → CachingFileReader → Except TtmError (List (List String) × CachingFileReader)
  | 0, r => .ok ([], r)
  | n + 1, r =>
    match drainPass r with
    | .error e => .error e
    | .ok (ls, r1) =>
      match drainPasses n r1 with
      | .error e => .error e
      | .ok (lss, r2) => .ok (ls :: lss, r2)

theorem recSteps_le (r : CachingFileReader) (n : Nat)
    (h : r.streamPos + n ≤ r.source.length) :
    recSteps n r = { r with
                     streamPos := r.streamPos + n,
                     cache := r.cache ++ ((r.source.drop r.streamPos).take n).map stripLine } := by
  induction n with
  | zero => simp [recSteps]
  | succ n ih =>
    have hn : r.streamPos + n ≤ r.source.length := by omega
    have hlt : r.streamPos + n < r.source.length := by omega
    rw [recSteps, ih hn]
    have hget : r.source[r.streamPos + n]? = some r.source[r.streamPos + n] :=
      List.getElem?_eq_getElem hlt
    simp only [recStep, hget]
    have htake : (r.source.drop r.streamPos).take (n + 1)
        = (r.source.drop r.streamPos).take n ++ [r.source[r.streamPos + n]] := by
      rw [List.take_succ, List.getElem?_drop r.source r.streamPos n, hget]
      rfl
    simp [htake, List.append_assoc]
    omega

theorem recSteps_full (source : List String) :
    recSteps source.length (recStarted source)
      = { recStarted source with streamPos := source.length, cache := source.map stripLine } := by
  have h0 : (recStarted source).streamPos + source.length ≤ (recStarted source).source.length := by
    simp [recStarted, CachingFileReader.fresh]
  rw [recSteps_le _ _ h0]
  simp [recStarted, CachingFileReader.fresh]

theorem recSteps_done (source : List String) :
    recSteps (source.length + 1) (recStarted source) = recDone source := by
  have hnone : source[source.length]? = none := List.getElem?_eq_none (le_refl _)
  rw [recSteps, recSteps_full]
  simp [recStep, recStarted, recDone, CachingFileReader.fresh, hnone]

/-- C1: over an unseekable resource, the very first `iterate()` call is
the recording pass and does not raise; any further `iterate()` started
after at most `source.length` consumer steps of the recording pass —
that is, strictly before the recording pass has been fully drained —
raises the usage-violation `Exception`; an `iterate()` started after the
recording pass has completed does not raise and replays exactly the
recorded buffer. -/
theorem caching_reader_sequencing (source : List String) (n : Nat)
    (hn : n ≤ source.length) :
    iterStart (CachingFileReader.fresh source false) = .ok (.recording, recStarted source) ∧
    iterStart (recSteps n (recStarted source)) = .error (.exception usageMsg) ∧
    iterStart (recSteps (source.length + 1) (recStarted source))
      = .ok (.replay (source.map stripLine), recDone source) := by
  refine ⟨by simp [iterStart, CachingFileReader.fresh, recStarted], ?_, ?_⟩
  · have h0 : (recStarted source).streamPos + n ≤ (recStarted source).source.length := by
      simpa [recStarted, CachingFileReader.fresh] using hn
    rw [recSteps_le _ _ h0]
    simp [iterStart, recStarted, CachingFileReader.fresh]
  · rw [recSteps_done]
    simp [iterStart, recDone]

theorem caching_reader_sequencing_witness :
    iterStart (recSteps 1 (recStarted ["x", "y"])) = .error (.exception usageMsg) :=
  (caching_reader_sequencing ["x", "y"] 1 (by decide)).2.1

theorem drainPasses_fixed (r : CachingFileReader) (ls : List String)
    (h : drainPass r = .ok (ls, r)) (n : Nat) :
    drainPasses n r = .ok (List.replicate n ls, r) := by
  induction n with
  | zero => simp [drainPasses]
  | succ n ih => simp [drainPasses, h, ih, List.replicate_succ]

/-- C2: repeated `iterate()` calls yield identical line sequences. Over a
seekable resource, any number `n` of complete `iterate()` calls each
yield the same stripped line sequence and leave the reader unchanged.
Over an unseekable resource, the completed recording pass yields the
stripped stream content, and every subsequent `iterate()` call replays
exactly that recorded sequence, any number of times (the statement is
universal in `source`, so it covers zero-row and single-row inputs). -/
theorem replay_equivalence (source : List String) (n : Nat) :
    drainPasses n (CachingFileReader.fresh source true)
      = .ok (List.replicate n (source.map stripLine), CachingFileReader.fresh source true) ∧
    drainPass (CachingFileReader.fresh source false)
      = .ok (source.map stripLine, recDone source) ∧
    drainPasses n (recDone source)
      = .ok (List.replicate n (source.map stripLine), recDone source) := by
  have hseek : drainPass (CachingFileReader.fresh source true)
      = .ok (source.map stripLine, CachingFileReader.fresh source true) := by
    simp [drainPass, iterStart, CachingFileReader.fresh]
  have hrec : drainPass (CachingFileReader.fresh source false)
      = .ok (source.map stripLine, recDone source) := by
    have hstart : iterStart (CachingFileReader.fresh source false)
        = .ok (.recording, recStarted source) := by
      simp [iterStart, CachingFileReader.fresh, recStarted]
    have hlen : (recStarted source).source.length - (recStarted source).streamPos + 1
        = source.length + 1 := by
      simp [recStarted, CachingFileReader.fresh]
    simp only [drainPass, hstart, hlen, recSteps_done]
    simp [recStarted, recDone, CachingFileReader.fresh]
  have hreplay : drainPass (recDone source) = .ok (source.map stripLine, recDone source) := by
    simp [drainPass, iterStart, recDone]
  exact ⟨drainPasses_fixed _ _ hseek n, hrec, drainPasses_fixed _ _ hreplay n⟩

/-- Row projection performed by `InputFile.__iter__`: the comprehension
`[ line[i] for i in range(len(line)) if header[i] not in strip ]`,
walking header and row cells in lockstep; indexing `header[i]` past the
end of the header is an `IndexError`, modelled as `none`. -/
def projRow (strip : List String) : List String → List String → Option (List String)
  | _, [] => some []
  | [], _ :: _ => none
  | h :: hs, c :: cs =>
    match projRow strip hs cs with
    | none => none
    | some rest => some (if h ∈ strip then rest else c :: rest)

/-- Model of `InputFile.__iter__` over the line sequence produced by its
`file_reader`: with no stripped columns the lines pass through
unchanged; otherwise the first line is the header (raising
`ExpectedRuntimeError` when there is none) and the header and every data
line are re-emitted with the cells of stripped columns removed. -/
def inputFileIterate (lines : List String) (strip_columns : List String) :
    Except TtmError (List String) :=
  match strip_columns with
  | [] => .ok lines
  | _ :: _ =>
    match lines with
    | [] => .error (.expectedRuntimeError "Input file is empty")
    | h :: rest =>
      let header := splitTab h
      match rest.mapM (fun l => projRow strip_columns header (splitTab l)) with
      | none => .error .indexError
      | some rows =>
        .ok (joinTab (header.filter (fun x => decide (x ∉ strip_columns))) :: rows.map joinTab)

/-- The tabular view: a shared `CachingFileReader` plus the ordered set
of column names excluded from projection. -/
structure InputFile where
  file_reader : CachingFileReader
  strip_columns : List String
  deriving DecidableEq

/-- Model of `InputFile.strip`: a new view over the same `file_reader` with one
more excluded column prepended. -/
def InputFile.strip (f : InputFile) (column : String) : InputFile :=
  { file_reader := f.file_reader, strip_columns := [column] ++ f.strip_columns }

theorem projRow_congr (s1 s2 : List String) (hmem : ∀ x, x ∈ s1 ↔ x ∈ s2) :
    ∀ header cells, projRow s1 header cells = projRow s2 header cells := by
  intro header cells
  induction cells generalizing header with
  | nil => cases header <;> rfl
  | cons c cs ih =>
    cases header with
    | nil => rfl
    | cons h hs =>
      rw [projRow, projRow, ih hs]
      cases projRow s2 hs cs with
      | none => rfl
      | some rest =>
        by_cases hh : h ∈ s1
        · simp [hh, (hmem h).mp hh]
        · have hh2 : h ∉ s2 := fun hc => hh ((hmem h).mpr hc)
          simp [hh, hh2]

theorem inputFileIterate_congr (lines : List String) (a b : String) (s1 s2 : List String)
    (hmem : ∀ x, x ∈ a :: s1 ↔ x ∈ b :: s2) :
    inputFileIterate lines (a :: s1) = inputFileIterate lines (b :: s2) := by
  cases lines with
  | nil => rfl
  | cons h rest =>
    rw [inputFileIterate, inputFileIterate]
    have hproj : ∀ l, projRow (a :: s1) (splitTab h) (splitTab l)
        = projRow (b :: s2) (splitTab h) (splitTab l) := by
      intro l; exact projRow_congr _ _ hmem _ _
    have hmapM : (rest.mapM (fun l => projRow (a :: s1) (splitTab h) (splitTab l)))
        = rest.mapM (fun l => projRow (b :: s2) (splitTab h) (splitTab l)) := by
      induction rest with
      | nil => rfl
      | cons l ls ihl => simp [List.mapM_cons, hproj, ihl]
    have hfilter : (splitTab h).filter (fun x => decide (x ∉ a :: s1))
        = (splitTab h).filter (fun x => decide (x ∉ b :: s2)) := by
      apply List.filter_congr
      intro x _
      simp only [decide_eq_decide]
      exact not_congr (hmem x)
    rw [hmapM, hfilter]

/-- C5: stripping columns commutes. `view.strip(a).strip(b)` and
`view.strip(b).strip(a)` share the original view's line cache (the
`file_reader` reference), leave the original view unchanged (stripping
only prepends to the exclusion list of a new view), and produce
identical header and row projections over any line sequence the cache
yields. -/
theorem strip_composability (f : InputFile) (a b : String) (lines : List String) :
    ((f.strip a).strip b).file_reader = f.file_reader ∧
    ((f.strip b).strip a).file_reader = f.file_reader ∧
    ((f.strip a).strip b).strip_columns = b :: a :: f.strip_columns ∧
    ((f.strip b).strip a).strip_columns = a :: b :: f.strip_columns ∧
    inputFileIterate lines ((f.strip a).strip b).strip_columns
      = inputFileIterate lines ((f.strip b).strip a).strip_columns := by
  refine ⟨rfl, rfl, rfl, rfl, ?_⟩
  show inputFileIterate lines (b :: a :: f.strip_columns)
      = inputFileIterate lines (a :: b :: f.strip_columns)
  apply inputFileIterate_congr
  intro x
  simp only [List.mem_cons]
  tauto

/-- The filter loop of `Column.__iter__`: `for j, f in
enumerate(self.filters): if not f(line[i_filters[j]]): break` with the
`for`/`else` yield decision — `true` when every filter accepted its
cell, `false` on the first rejection; indexing a missing `i_filters[j]`
or a cell past the end of the row is an `IndexError`. -/
def checkFilters (cells : List String) : List Nat → List (String → Bool) → Except TtmError Bool
  | _, [] => .ok true
  | [], _ :: _ => .error .indexError
  | i :: is, f :: fs =>
    match cells[i]? with
    | none => .error .indexError
    | some v => if f v then checkFilters cells is fs else .ok false

/-- Treatment of one data row in `Column.__iter__`: run the filters on
the row's raw cells; when they all pass, decode the target cell with
`map_f` and yield it (`some`), otherwise skip the row (`none`). -/
def colRow {α : Type} (i_col : Nat) (i_filters : List Nat) (filters : List (String → Bool))
    (map_f : String → α) (cells : List String) : Except TtmError (Option α) :=
  match checkFilters cells i_filters filters with
  | .error e => .error e
  | .ok false => .ok none
  | .ok true =>
    match cells[i_col]? with
    | none => .error .indexError
    | some v => .ok (some (map_f v))

/-- Model of `Column.__iter__` over the line sequence yielded by the owning view:
take the header from the first line (raising `ExpectedRuntimeError` when
there is none), fail with `ColumnNotFound` if the target column — or,
checked next, any filter column — is absent, resolve all names to
positional indices, then yield the decoded target cell of every data row
that passes all filters. -/
def columnIter {α : Type} (lines : List String) (column : String) (map_f : String → α)
    (filter_by : List String) (filters : List (String → Bool)) : Except TtmError (List α) :=
  match lines with
  | [] => .error (.expectedRuntimeError "Input file is empty")
  | h :: rest =>
    let header := splitTab h
    if column ∈ header then
      match filter_by.find? (fun c => decide (c ∉ header)) with
      | some c => .error (.columnNotFound c)
      | none =>
        let i_col := header.indexOf column
        let i_filters := filter_by.map (fun c => header.indexOf c)
        match rest.mapM (fun l => colRow i_col i_filters filters map_f (splitTab l)) with
        | .error e => .error e
        | .ok opts => .ok (opts.filterMap id)
    else .error (.columnNotFound column)

/-- The column accessor. `corpus` stands for the line sequence the
owning `InputFile` yields (every iteration of the accessor restarts that
view); the remaining fields are the constructor arguments of `Column`. -/
structure Column (α : Type) where
  corpus : List String
  column : String
  map_f : String → α
  filter_by : List String
  filters : List (String → Bool)

/-- Model of `Column.filter`: a new accessor with one more (column, predicate)
pair prepended; the existing pairs are preserved. -/
def Column.filter {α : Type} (c : Column α) (column : String) (f : String → Bool) : Column α :=
  { c with filter_by := [column] ++ c.filter_by, filters := [f] ++ c.filters }

/-- Model of `Column.__iter__` of a given accessor. -/
def Column.iterate {α : Type} (c : Column α) : Except TtmError (List α) :=
  columnIter c.corpus c.column c.map_f c.filter_by c.filters

/-- Model of `Column.__len__` with the `_len` attribute made explicit: the call
takes the stored `_len`, returns the count together with the updated
`_len`, and a flag recording whether the `sum(1 for _ in self)`
iteration was actually performed on this call. -/
def Column.length {α : Type} (c : Column α) (memo : Option Nat) :
    Except TtmError (Nat × Option Nat × Bool) :=
  match memo with
  | some n => .ok (n, some n, false)
  | none =>
    match c.iterate with
    | .error e => .error e
    | .ok vs => .ok (vs.length, some vs.length, true)

/-- Model of `Column.peek`: `next(iter(self))` — the first yielded value, a plain
`StopIteration` when the iteration yields nothing, and any error raised
by the iteration itself propagated unchanged. -/
def Column.peek {α : Type} (c : Column α) : Except TtmError α :=
  match c.iterate with
  | .error e => .error e
  | .ok [] => .error .stopIteration
  | .ok (v :: _) => .ok v

/-- The raw cell of line `l` in the column named `c`, as `Column.__iter__`
addresses it: position `header.index(c)` of `l.split('\t')`. -/
def cellAt (header : List String) (c : String) (l : String) : String :=
  (splitTab l).getD (header.indexOf c) ""

/-- Inner loop of `Column.sparse_matrix` for one decoded row `v` at row
index `i`: `for j, cell in enumerate(v): if cell == 0: continue;
row.append(i); col.append(j); data.append(cell)`, with the three
parallel lists packaged as coordinate triples. -/
def rowTriples (i : Nat) : Nat → List Int → List (Nat × Nat × Int)
  | _, [] => []
  | j, c :: cs =>
    if c = 0 then rowTriples i (j + 1) cs else (i, j, c) :: rowTriples i (j + 1) cs

/-- Outer loop of `Column.sparse_matrix`: `for i, v in
enumerate(iter(self))`, collecting the coordinate triples of every
nonzero cell. -/
def sparseTriples : Nat → List (List Int) → List (Nat × Nat × Int)
  | _, [] => []
  | i, r :: rs => rowTriples i 0 r ++ sparseTriples (i + 1) rs

/-- Result of a matrix materialization: either the dense
`numpy.ndarray` filled row by row (`m[i] = v`), or the
`scipy.sparse.csr_matrix` built from the coordinate triples; both carry
the `(n_rows, n_cols)` shape computed from `len(self)` and
`len(self.peek())`. -/
inductive MatrixRep where
  | dense (rows : List (List Int)) (shape : Nat × Nat)
  | sparse (triples : List (Nat × Nat × Int)) (shape : Nat × Nat)
  deriving DecidableEq

/-- Model of `Column.dense_matrix` on the decoded rows the iteration yields
(`dtype` handling is a numpy type-level detail that is not modelled). -/
def dense_matrix (rows : List (List Int)) : Except TtmError MatrixRep :=
  if rows.length = 0 then .error .emptyColumnError
  else .ok (.dense rows (rows.length, (rows.headD []).length))

/-- Model of `Column.sparse_matrix` on the decoded rows the iteration yields. -/
def sparse_matrix (rows : List (List Int)) : Except TtmError MatrixRep :=
  if rows.length = 0 then .error .emptyColumnError
  else .ok (.sparse (sparseTriples 0 rows) (rows.length, (rows.headD []).length))

/-- The `entries` accumulator of `Column.matrix`: total number of scalar
cells in the sampled first (up to) 10 rows, from `zip(range(10), self)`. -/
def sampleEntries (rows : List (List Int)) : Nat :=
  ((rows.take 10).map List.length).sum

/-- The `zeros` accumulator of `Column.matrix`: number of sampled scalar
cells that are exactly zero. -/
def sampleZeros (rows : List (List Int)) : Nat :=
  ((rows.take 10).map (fun r => (r.filter (fun cell => decide (cell = 0))).length)).sum

/-- Model of `Column.matrix` on the decoded rows: empty column check, the 10-row
density sample, then the choice `sparse if zeros/entries > .5 else
dense`. The Python float comparison `zeros/entries > .5` on the sampled
integer counts is modelled as the exact comparison `entries < 2 * zeros`
(`zeros/entries` with `entries = 0` is a `ZeroDivisionError`). -/
def matrixOf (rows : List (List Int)) : Except TtmError MatrixRep :=
  if rows.length = 0 then .error .emptyColumnError
  else if sampleEntries rows = 0 then .error .zeroDivision
  else if sampleEntries rows < 2 * sampleZeros rows then sparse_matrix rows
  else dense_matrix rows

/-- Model of `Column.matrix` of an accessor over decoded numeric rows: the
`len(self) == 0` test iterates the column, so iteration errors
propagate; otherwise the choice is made on the yielded rows. -/
def Column.matrix (c : Column (List Int)) : Except TtmError MatrixRep :=
  match c.iterate with
  | .error e => .error e
  | .ok rows => matrixOf rows

/-- Entry `(i, j)` of the dense array built by `dense_matrix` (row `i`
was written by the assignment `m[i] = v`). -/
def denseEntry (rows : List (List Int)) (i j : Nat) : Int :=
  (rows.getD i []).getD j 0

/-- Entry `(i, j)` of the `csr_matrix((data, (row, col)))` built by
`sparse_matrix`: scipy sums the data values of every coordinate pair
equal to `(i, j)`. -/
def cooEntry (ts : List (Nat × Nat × Int)) (i j : Nat) : Int :=
  (ts.filterMap (fun t => if t.1 = i ∧ t.2.1 = j then some t.2.2 else none)).sum

/-- The materialization chose the sparse representation. -/
def isSparseRep (e : Except TtmError MatrixRep) : Prop :=
  ∃ ts shape, e = .ok (.sparse ts shape)

/-- The materialization chose the dense representation. -/
def isDenseRep (e : Except TtmError MatrixRep) : Prop :=
  ∃ rows shape, e = .ok (.dense rows shape)

theorem checkFilters_ok (cells : List String) (is : List Nat) (fs : List (String → Bool))
    (hlen : fs.length ≤ is.length) (hbound : ∀ i ∈ is, i < cells.length) :
    checkFilters cells is fs = .ok ((fs.zip is).all (fun p => p.1 (cells.getD p.2 ""))) := by
  induction fs generalizing is with
  | nil => cases is <;> simp [checkFilters]
  | cons f fs ih =>
    cases is with
    | nil => simp at hlen
    | cons i is0 =>
      have hi : i < cells.length := hbound i (by simp)
      have hget : cells[i]? = some (cells.getD i "") := by
        rw [List.getD_eq_getElem?_getD, List.getElem?_eq_getElem hi]
        rfl
      simp only [checkFilters, hget, List.zip_cons_cons, List.all_cons]
      by_cases hf : f (cells.getD i "")
      · rw [if_pos hf, ih is0 (by simpa using hlen) (fun i2 h2 => hbound i2 (by simp [h2])),
          hf, Bool.true_and]
      · rw [if_neg hf, Bool.eq_false_iff.mpr hf, Bool.false_and]

theorem colRow_ok {α : Type} (i_col : Nat) (is : List Nat) (fs : List (String → Bool))
    (map_f : String → α) (cells : List String)
    (hcol : i_col < cells.length) (hlen : fs.length ≤ is.length)
    (hbound : ∀ i ∈ is, i < cells.length) :
    colRow i_col is fs map_f cells
      = .ok (if (fs.zip is).all (fun p => p.1 (cells.getD p.2 ""))
             then some (map_f (cells.getD i_col "")) else none) := by
  have hget : cells[i_col]? = some (cells.getD i_col "") := by
    rw [List.getD_eq_getElem?_getD, List.getElem?_eq_getElem hcol]
    rfl
  simp only [colRow, checkFilters_ok cells is fs hlen hbound]
  cases hall : (fs.zip is).all (fun p => p.1 (cells.getD p.2 "")) with
  | false => rfl
  | true =>
    rw [hget]
    rfl

theorem mapM_ok {α β : Type} (g : α → Except TtmError β) (f0 : α → β) (l : List α)
    (h : ∀ x ∈ l, g x = .ok (f0 x)) : l.mapM g = .ok (l.map f0) := by
  induction l with
  | nil => rfl
  | cons x xs ih =>
    simp only [List.mapM_cons, h x (by simp), List.map_cons,
      ih (fun y hy => h y (by simp [hy]))]
    rfl

theorem filterMap_if {β γ : Type} (P : β → Bool) (g : β → γ) (l : List β) :
    l.filterMap (fun x => if P x then some (g x) else none) = (l.filter P).map g := by
  induction l with
  | nil => rfl
  | cons x xs ih => by_cases h : P x <;> simp [List.filterMap_cons, List.filter_cons, h, ih]

theorem columnIter_ok {α : Type} (h : String) (rest : List String) (column : String)
    (map_f : String → α) (fb : List String) (fs : List (String → Bool))
    (hcol : column ∈ splitTab h)
    (hfb : ∀ c ∈ fb, c ∈ splitTab h)
    (hlen : fs.length ≤ fb.length)
    (hrows : ∀ l ∈ rest, (splitTab h).length ≤ (splitTab l).length) :
    columnIter (h :: rest) column map_f fb fs
      = .ok ((rest.filter (fun l =>
            (fs.zip (fb.map (fun c => (splitTab h).indexOf c))).all
              (fun p => p.1 ((splitTab l).getD p.2 "")))).map
          (fun l => map_f (cellAt (splitTab h) column l))) := by
  have hfind : fb.find? (fun c => decide (c ∉ splitTab h)) = none :=
    List.find?_eq_none.mpr (fun c hc => by simp [hfb c hc])
  have hrow : ∀ l ∈ rest,
      colRow ((splitTab h).indexOf column) (fb.map (fun c => (splitTab h).indexOf c)) fs
          map_f (splitTab l)
        = .ok (if (fs.zip (fb.map (fun c => (splitTab h).indexOf c))).all
                  (fun p => p.1 ((splitTab l).getD p.2 ""))
               then some (map_f ((splitTab l).getD ((splitTab h).indexOf column) "")) else none) := by
    intro l hl
    apply colRow_ok
    · exact lt_of_lt_of_le (List.indexOf_lt_length.mpr hcol) (hrows l hl)
    · simpa using hlen
    · intro i hi
      obtain ⟨c, hc, rfl⟩ := List.mem_map.mp hi
      exact lt_of_lt_of_le (List.indexOf_lt_length.mpr (hfb c hc)) (hrows l hl)
  simp only [columnIter, if_pos hcol, hfind]
  rw [mapM_ok _ _ rest hrow]
  simp [List.filterMap_map, filterMap_if, cellAt]

/-- C4: filters are a conjunction over raw cells and chaining order is
irrelevant. Over a well-formed view (target and both filter columns in
the header, every data row at least as wide as the header),
`column(x).filter(y, p1).filter(z, p2)` yields exactly the elements of
the unfiltered `column(x)` sequence, in order, whose row satisfies `p1`
on the raw `y` cell and `p2` on the raw `z` cell; chaining the two
filters in the other order yields the same sequence; and the unfiltered
`column(x)` yields every row's decoded `x` cell. -/
theorem filter_conjunction {α : Type} (h : String) (rest : List String) (x y z : String)
    (map_f : String → α) (p1 p2 : String → Bool)
    (hx : x ∈ splitTab h) (hy : y ∈ splitTab h) (hz : z ∈ splitTab h)
    (hrows : ∀ l ∈ rest, (splitTab h).length ≤ (splitTab l).length) :
    (((⟨h :: rest, x, map_f, [], []⟩ : Column α).filter y p1).filter z p2).iterate
      = .ok ((rest.filter (fun l =>
            p1 (cellAt (splitTab h) y l) && p2 (cellAt (splitTab h) z l))).map
          (fun l => map_f (cellAt (splitTab h) x l))) ∧
    (((⟨h :: rest, x, map_f, [], []⟩ : Column α).filter z p2).filter y p1).iterate
      = .ok ((rest.filter (fun l =>
            p1 (cellAt (splitTab h) y l) && p2 (cellAt (splitTab h) z l))).map
          (fun l => map_f (cellAt (splitTab h) x l))) ∧
    (⟨h :: rest, x, map_f, [], []⟩ : Column α).iterate
      = .ok (rest.map (fun l => map_f (cellAt (splitTab h) x l))) := by
  refine ⟨?_, ?_, ?_⟩
  · show columnIter (h :: rest) x map_f [z, y] [p2, p1] = _
    have hmem : ∀ c ∈ [z, y], c ∈ splitTab h := by
      intro c hc
      simp only [List.mem_cons, List.not_mem_nil, or_false] at hc
      rcases hc with rfl | rfl
      · exact hz
      · exact hy
    rw [columnIter_ok h rest x map_f [z, y] [p2, p1] hx hmem (by simp) hrows]
    congr 1
    congr 1
    apply List.filter_congr
    intro l _
    simp only [List.map_cons, List.map_nil, List.zip_cons_cons, List.zip_nil_right,
      List.all_cons, List.all_nil, cellAt]
    cases p1 ((splitTab l).getD ((splitTab h).indexOf y) "") <;>
      cases p2 ((splitTab l).getD ((splitTab h).indexOf z) "") <;> rfl
  · show columnIter (h :: rest) x map_f [y, z] [p1, p2] = _
    have hmem : ∀ c ∈ [y, z], c ∈ splitTab h := by
      intro c hc
      simp only [List.mem_cons, List.not_mem_nil, or_false] at hc
      rcases hc with rfl | rfl
      · exact hy
      · exact hz
    rw [columnIter_ok h rest x map_f [y, z] [p1, p2] hx hmem (by simp) hrows]
    congr 1
    congr 1
    apply List.filter_congr
    intro l _
    simp only [List.map_cons, List.map_nil, List.zip_cons_cons, List.zip_nil_right,
      List.all_cons, List.all_nil, cellAt]
    cases p1 ((splitTab l).getD ((splitTab h).indexOf y) "") <;>
      cases p2 ((splitTab l).getD ((splitTab h).indexOf z) "") <;> rfl
  · show columnIter (h :: rest) x map_f [] [] = _
    rw [columnIter_ok h rest x map_f [] [] hx (by intro c hc; cases hc) (by simp) hrows]
    simp

theorem filter_conjunction_witness :
    (((⟨["x\ty\tz", "1\ta\tb", "2\tc\tb", "3\ta\td"], "x", fun s => s, [], []⟩ :
          Column String).filter "y" (fun v => v == "a")).filter "z" (fun v => v == "b")).iterate
      = .ok ((["1\ta\tb", "2\tc\tb", "3\ta\td"].filter (fun l =>
            (cellAt (splitTab "x\ty\tz") "y" l == "a") && (cellAt (splitTab "x\ty\tz") "z" l == "b"))).map
          (fun l => cellAt (splitTab "x\ty\tz") "x" l)) :=
  (filter_conjunction "x\ty\tz" ["1\ta\tb", "2\tc\tb", "3\ta\td"] "x" "y" "z"
    (fun s => s) (fun v => v == "a") (fun v => v == "b")
    (by decide) (by decide) (by decide) (by decide)).1

/-- C6: iterating a column accessor over a non-empty resource raises
`ColumnNotFound` when the target column is absent from the header, and
raises the same `ColumnNotFound` condition when the target is present
but some filter column is absent — the error names the target in the
first case (checked first) and an absent filter column in the second. -/
theorem missing_column {α : Type} (h : String) (rest : List String) (column c : String)
    (map_f : String → α) (fb : List String) (fs : List (String → Bool)) :
    (column ∉ splitTab h →
      columnIter (h :: rest) column map_f fb fs = .error (.columnNotFound column)) ∧
    (column ∈ splitTab h → c ∈ fb → c ∉ splitTab h →
      ∃ c0, c0 ∈ fb ∧ c0 ∉ splitTab h ∧
        columnIter (h :: rest) column map_f fb fs = .error (.columnNotFound c0)) := by
  constructor
  · intro hc
    simp only [columnIter, if_neg hc]
  · intro hcol hcmem hcabs
    have hsome : (fb.find? (fun c1 => decide (c1 ∉ splitTab h))).isSome :=
      List.find?_isSome.mpr ⟨c, hcmem, by simp [hcabs]⟩
    obtain ⟨c0, hfind⟩ := Option.isSome_iff_exists.mp hsome
    refine ⟨c0, List.mem_of_find?_eq_some hfind, by simpa using List.find?_some hfind, ?_⟩
    simp only [columnIter, if_pos hcol, hfind]

theorem missing_column_witness :
    columnIter ["a\tb", "1\t2"] "nope" (fun s => s) [] [] = .error (.columnNotFound "nope") ∧
    (∃ c0, c0 ∈ ["nope"] ∧ c0 ∉ splitTab "a\tb" ∧
      columnIter ["a\tb", "1\t2"] "a" (fun s => s) ["nope"] [fun _ => true]
        = .error (.columnNotFound c0)) :=
  ⟨(missing_column "a\tb" ["1\t2"] "nope" "nope" (fun s => s) [] []).1 (by decide),
   (missing_column "a\tb" ["1\t2"] "a" "nope" (fun s => s) ["nope"] [fun _ => true]).2
     (by decide) (by decide) (by decide)⟩

/-- C7 as stated is false for the tabular view: `InputFile.__iter__`
with an empty exclusion set passes the line sequence through unchanged,
so iterating a view with no stripped columns over an empty resource
yields the empty sequence instead of failing with the empty-input
condition. -/
theorem empty_input_view_counterexample :
    inputFileIterate [] [] = .ok [] := rfl

/-- C7 (amended): iterating a tabular view with at least one stripped
column over an empty resource fails with the empty-input
`ExpectedRuntimeError` (a view with no stripped columns yields the empty
sequence without error); iterating a column accessor over an empty
resource fails with the same empty-input condition; materializing a
matrix from a column whose iteration succeeds with zero matching rows
fails with the distinct `EmptyColumnError`; and empty-input,
empty-column and missing-column are pairwise distinct conditions. -/
theorem empty_input_conditions {α : Type} (strip0 : List String) (c0 column : String)
    (map_f : String → α) (fb : List String) (fs : List (String → Bool))
    (mc : Column (List Int)) (hmc : mc.iterate = .ok []) :
    inputFileIterate [] (c0 :: strip0) = .error (.expectedRuntimeError "Input file is empty") ∧
    inputFileIterate [] [] = .ok [] ∧
    columnIter ([] : List String) column map_f fb fs
      = .error (.expectedRuntimeError "Input file is empty") ∧
    mc.matrix = .error .emptyColumnError ∧
    (∀ m c1, TtmError.expectedRuntimeError m ≠ .columnNotFound c1) ∧
    (∀ c1, TtmError.emptyColumnError ≠ .columnNotFound c1) ∧
    (∀ m, TtmError.expectedRuntimeError m ≠ .emptyColumnError) := by
  refine ⟨rfl, rfl, rfl, ?_, ?_, ?_, ?_⟩
  · simp [Column.matrix, hmc, matrixOf]
  · intro m c1 hne
    cases hne
  · intro c1 hne
    cases hne
  · intro m hne
    cases hne

theorem empty_input_conditions_witness :
    inputFileIterate [] ["id"] = .error (.expectedRuntimeError "Input file is empty") ∧
    (⟨["v"], "v", fun _ => ([] : List Int), [], []⟩ : Column (List Int)).matrix
      = .error .emptyColumnError :=
  ⟨(empty_input_conditions [] "id" "v" (fun s => s) [] []
      ⟨["v"], "v", fun _ => ([] : List Int), [], []⟩ rfl).1,
   (empty_input_conditions [] "id" "v" (fun s => (s : String)) [] []
      ⟨["v"], "v", fun _ => ([] : List Int), [], []⟩ rfl).2.2.2.1⟩

/-- C8 as stated is false: `Column.__len__` memoizes its count in the
`_len` attribute. On a concrete two-line corpus the first `length()`
call iterates (flag `true`) and stores the count; a second call made
with that stored state returns the memo without performing the counting
iteration (flag `false`), so it is not the case that every call
re-counts by iterating. -/
theorem length_memoized_counterexample :
    (⟨["x", "a"], "x", fun s => s, [], []⟩ : Column String).length none
      = .ok (1, some 1, true) ∧
    (⟨["x", "a"], "x", fun s => s, [], []⟩ : Column String).length (some 1)
      = .ok (1, some 1, false) :=
  ⟨rfl, rfl⟩

/-- C8 (amended): `length()` returns the number of rows passing all
filters; the first call (with `_len` unset) computes it by a full
iteration and memoizes it, and every later call (with `_len` set)
returns the memoized count without iterating again. -/
theorem length_counts_and_memoizes {α : Type} (c : Column α) (vs : List α) (n : Nat)
    (hok : c.iterate = .ok vs) :
    c.length none = .ok (vs.length, some vs.length, true) ∧
    c.length (some n) = .ok (n, some n, false) := by
  constructor
  · simp [Column.length, hok]
  · rfl

theorem length_counts_and_memoizes_witness :
    (⟨["x\ty", "1\t2", "3\t4"], "y", fun s => s, [], []⟩ : Column String).length none
      = .ok (2, some 2, true) ∧
    (⟨["x\ty", "1\t2", "3\t4"], "y", fun s => s, [], []⟩ : Column String).length (some 2)
      = .ok (2, some 2, false) :=
  length_counts_and_memoizes (⟨["x\ty", "1\t2", "3\t4"], "y", fun s => s, [], []⟩ : Column String)
    ["2", "4"] 2 rfl

/-- C10: `peek()` on a column accessor whose iteration succeeds with
zero matching rows raises the plain `StopIteration` of `next` on an
exhausted iterator — not the empty-column or empty-input condition —
and when at least one row matches it returns the first decoded matching
value. -/
theorem peek_first_or_stop {α : Type} (c : Column α) (v : α) (vs : List α) :
    (c.iterate = .ok [] → c.peek = .error .stopIteration) ∧
    (c.iterate = .ok (v :: vs) → c.peek = .ok v) ∧
    TtmError.stopIteration ≠ .emptyColumnError ∧
    (∀ m, TtmError.stopIteration ≠ .expectedRuntimeError m) := by
  refine ⟨?_, ?_, ?_, ?_⟩
  · intro hok
    simp [Column.peek, hok]
  · intro hok
    simp [Column.peek, hok]
  · intro hne
    cases hne
  · intro m hne
    cases hne

theorem peek_first_or_stop_witness :
    (⟨["a\tb", "1\t2"], "a", fun s => s, ["b"], [fun _ => false]⟩ : Column String).peek
      = .error .stopIteration ∧
    (⟨["a\tb", "1\t2"], "a", fun s => s, [], []⟩ : Column String).peek = .ok "1" :=
  ⟨(peek_first_or_stop (⟨["a\tb", "1\t2"], "a", fun s => s, ["b"], [fun _ => false]⟩ :
      Column String) "1" []).1 rfl,
   (peek_first_or_stop (⟨["a\tb", "1\t2"], "a", fun s => s, [], []⟩ : Column String)
      "1" []).2.1 rfl⟩

/-- C3: `matrix()` samples up to the first 10 decoded rows and chooses
the sparse representation exactly when strictly more than half of the
sampled scalar entries are zero — the ratio `zeros/entries` exceeds
`1/2` — and in particular a sample with exactly 50 percent zeros
selects the dense representation, not the sparse one. -/
theorem matrix_density_threshold (c : Column (List Int)) (rows : List (List Int))
    (hok : c.iterate = .ok rows) (hne : rows ≠ [])
    (hent : sampleEntries rows ≠ 0) :
    (isSparseRep c.matrix ↔
      (1 : ℚ) / 2 < (sampleZeros rows : ℚ) / (sampleEntries rows : ℚ)) ∧
    ((sampleZeros rows : ℚ) / (sampleEntries rows : ℚ) = 1 / 2 → isDenseRep c.matrix) := by
  have hlen : rows.length ≠ 0 := fun h0 => hne (List.length_eq_zero.mp h0)
  have hmat : c.matrix = matrixOf rows := by
    simp [Column.matrix, hok]
  have hepos : (0 : ℚ) < (sampleEntries rows : ℚ) :=
    Nat.cast_pos.mpr (Nat.pos_of_ne_zero hent)
  have hiff : ((1 : ℚ) / 2 < (sampleZeros rows : ℚ) / (sampleEntries rows : ℚ)) ↔
      sampleEntries rows < 2 * sampleZeros rows := by
    rw [div_lt_div_iff₀ (by norm_num) hepos]
    constructor
    · intro h1
      have h2 : ((sampleEntries rows : ℚ)) < 2 * (sampleZeros rows : ℚ) := by linarith
      exact_mod_cast h2
    · intro h1
      have h2 : ((sampleEntries rows : ℚ)) < 2 * (sampleZeros rows : ℚ) := by exact_mod_cast h1
      linarith
  constructor
  · rw [hiff, hmat, matrixOf, if_neg hlen, if_neg hent]
    by_cases hcmp : sampleEntries rows < 2 * sampleZeros rows
    · rw [if_pos hcmp]
      constructor
      · intro _; exact hcmp
      · intro _
        exact ⟨sparseTriples 0 rows, (rows.length, (rows.headD []).length),
          by rw [sparse_matrix, if_neg hlen]⟩
    · rw [if_neg hcmp]
      constructor
      · rintro ⟨ts, shape, hts⟩
        rw [dense_matrix, if_neg hlen] at hts
        cases hts
      · intro h1
        exact absurd h1 hcmp
  · intro hhalf
    have heq : sampleEntries rows = 2 * sampleZeros rows := by
      rw [div_eq_div_iff (ne_of_gt hepos) (by norm_num)] at hhalf
      have h2 : (sampleZeros rows : ℚ) * 2 = (sampleEntries rows : ℚ) := by linarith
      have h3 : sampleZeros rows * 2 = sampleEntries rows := by exact_mod_cast h2
      omega
    have hcmp : ¬ sampleEntries rows < 2 * sampleZeros rows := by omega
    rw [hmat, matrixOf, if_neg hlen, if_neg hent, if_neg hcmp]
    exact ⟨rows, (rows.length, (rows.headD []).length), by rw [dense_matrix, if_neg hlen]⟩

theorem matrix_density_threshold_witness :
    isDenseRep (⟨["v", "r"], "v", fun _ => ([0, 1] : List Int), [], []⟩ :
      Column (List Int)).matrix :=
  (matrix_density_threshold
      (⟨["v", "r"], "v", fun _ => ([0, 1] : List Int), [], []⟩ : Column (List Int))
      [[0, 1]] rfl (by decide) (by decide)).2
    (by norm_num [show sampleZeros [[0, 1]] = 1 from rfl, show sampleEntries [[0, 1]] = 2 from rfl])

theorem cooEntry_cons (a b : Nat) (v : Int) (ts : List (Nat × Nat × Int)) (i j : Nat) :
    cooEntry ((a, b, v) :: ts) i j
      = (if a = i ∧ b = j then v else 0) + cooEntry ts i j := by
  by_cases h : a = i ∧ b = j <;> simp [cooEntry, List.filterMap_cons, h]

theorem cooEntry_append (t1 t2 : List (Nat × Nat × Int)) (i j : Nat) :
    cooEntry (t1 ++ t2) i j = cooEntry t1 i j + cooEntry t2 i j := by
  simp [cooEntry, List.filterMap_append]

theorem cooEntry_rowTriples_ne (k i : Nat) (hk : k ≠ i) (row : List Int) :
    ∀ j0 j, cooEntry (rowTriples k j0 row) i j = 0 := by
  induction row with
  | nil => intro j0 j; rfl
  | cons c cs ih =>
    intro j0 j
    rw [rowTriples]
    by_cases hc : c = 0
    · rw [if_pos hc]
      exact ih (j0 + 1) j
    · rw [if_neg hc, cooEntry_cons, if_neg (fun hand => hk hand.1), ih (j0 + 1) j, zero_add]

theorem cooEntry_rowTriples_lt (i : Nat) (row : List Int) :
    ∀ j0 j, j < j0 → cooEntry (rowTriples i j0 row) i j = 0 := by
  induction row with
  | nil => intro j0 j _; rfl
  | cons c cs ih =>
    intro j0 j hj
    rw [rowTriples]
    by_cases hc : c = 0
    · rw [if_pos hc]
      exact ih (j0 + 1) j (by omega)
    · rw [if_neg hc, cooEntry_cons, if_neg (fun hand => by omega),
        ih (j0 + 1) j (by omega), zero_add]

theorem cooEntry_rowTriples (i : Nat) (row : List Int) :
    ∀ j0 t, cooEntry (rowTriples i j0 row) i (j0 + t) = row.getD t 0 := by
  induction row with
  | nil => intro j0 t; cases t <;> rfl
  | cons c cs ih =>
    intro j0 t
    rw [rowTriples]
    cases t with
    | zero =>
      by_cases hc : c = 0
      · rw [if_pos hc, cooEntry_rowTriples_lt i cs (j0 + 1) (j0 + 0) (by omega)]
        simp [hc]
      · rw [if_neg hc, cooEntry_cons, if_pos ⟨rfl, by omega⟩,
          cooEntry_rowTriples_lt i cs (j0 + 1) (j0 + 0) (by omega), add_zero]
        rfl
    | succ t0 =>
      have hsh : j0 + (t0 + 1) = (j0 + 1) + t0 := by omega
      by_cases hc : c = 0
      · rw [if_pos hc, hsh, ih (j0 + 1) t0]
        rfl
      · rw [if_neg hc, cooEntry_cons, if_neg (fun hand => by omega), zero_add,
          hsh, ih (j0 + 1) t0]
        rfl

theorem cooEntry_sparseTriples_lt (i : Nat) (rs : List (List Int)) (j : Nat) :
    ∀ k, i < k → cooEntry (sparseTriples k rs) i j = 0 := by
  induction rs with
  | nil => intro k _; rfl
  | cons r rs ih =>
    intro k hk
    rw [sparseTriples, cooEntry_append, cooEntry_rowTriples_ne k i (by omega) r 0 j,
      ih (k + 1) (by omega), zero_add]

theorem cooEntry_sparseTriples (j : Nat) (rs : List (List Int)) :
    ∀ k t, cooEntry (sparseTriples k rs) (k + t) j = (rs.getD t []).getD j 0 := by
  induction rs with
  | nil => intro k t; cases t <;> rfl
  | cons r rs ih =>
    intro k t
    cases t with
    | zero =>
      rw [Nat.add_zero, sparseTriples, cooEntry_append,
        cooEntry_sparseTriples_lt k rs j (k + 1) (by omega), add_zero]
      have h1 := cooEntry_rowTriples k r 0 j
      rw [Nat.zero_add] at h1
      rw [h1]
      rfl
    | succ t0 =>
      have hsh : k + (t0 + 1) = (k + 1) + t0 := by omega
      rw [sparseTriples, cooEntry_append,
        cooEntry_rowTriples_ne k (k + (t0 + 1)) (by omega) r 0 j, zero_add, hsh,
        ih (k + 1) t0]
      rfl

theorem mem_rowTriples (i : Nat) (row : List Int) (a b : Nat) (v : Int) :
    ∀ j0, (a, b, v) ∈ rowTriples i j0 row →
      a = i ∧ v ≠ 0 ∧ ∃ t, b = j0 + t ∧ row[t]? = some v := by
  induction row with
  | nil => intro j0 hmem; cases hmem
  | cons c cs ih =>
    intro j0 hmem
    rw [rowTriples] at hmem
    by_cases hc : c = 0
    · rw [if_pos hc] at hmem
      obtain ⟨ha, hv, t, hb, hget⟩ := ih (j0 + 1) hmem
      exact ⟨ha, hv, t + 1, by omega, by simpa using hget⟩
    · rw [if_neg hc] at hmem
      rw [List.mem_cons] at hmem
      rcases hmem with heq | hmem
      · have h1 : a = i ∧ b = j0 ∧ v = c := by simpa using heq
        obtain ⟨ha, hb, hv⟩ := h1
        have hvne : v ≠ 0 := by rw [hv]; exact hc
        exact ⟨ha, hvne, 0, by omega, by simp [hv]⟩
      · obtain ⟨ha, hv, t, hb, hget⟩ := ih (j0 + 1) hmem
        exact ⟨ha, hv, t + 1, by omega, by simpa using hget⟩

theorem rowTriples_mem (i : Nat) (row : List Int) (v : Int) (hv : v ≠ 0) :
    ∀ j0 t, row[t]? = some v → (i, j0 + t, v) ∈ rowTriples i j0 row := by
  induction row with
  | nil => intro j0 t hget; simp at hget
  | cons c cs ih =>
    intro j0 t hget
    cases t with
    | zero =>
      have hc : c = v := by simpa using hget
      have hcne : c ≠ 0 := by rw [hc]; exact hv
      rw [rowTriples, if_neg hcne, Nat.add_zero, ← hc]
      exact List.mem_cons_self _ _
    | succ t0 =>
      have hmem : (i, (j0 + 1) + t0, v) ∈ rowTriples i (j0 + 1) cs :=
        ih (j0 + 1) t0 (by simpa using hget)
      have hsh : j0 + (t0 + 1) = (j0 + 1) + t0 := by omega
      rw [rowTriples, hsh]
      by_cases hc : c = 0
      · rw [if_pos hc]
        exact hmem
      · rw [if_neg hc]
        exact List.mem_cons_of_mem _ hmem

theorem mem_sparseTriples (rs : List (List Int)) (a b : Nat) (v : Int) :
    ∀ k, (a, b, v) ∈ sparseTriples k rs →
      v ≠ 0 ∧ ∃ t row, a = k + t ∧ rs[t]? = some row ∧ row[b]? = some v := by
  induction rs with
  | nil => intro k hmem; cases hmem
  | cons r rs ih =>
    intro k hmem
    rw [sparseTriples, List.mem_append] at hmem
    rcases hmem with h1 | h2
    · obtain ⟨ha, hv, t, hb, hget⟩ := mem_rowTriples k r a b v 0 h1
      refine ⟨hv, 0, r, by omega, by simp, ?_⟩
      rw [hb, Nat.zero_add]
      exact hget
    · obtain ⟨hv, t, row, ha, hget, hgetb⟩ := ih (k + 1) h2
      exact ⟨hv, t + 1, row, by omega, by simpa using hget, hgetb⟩

theorem sparseTriples_mem (rs : List (List Int)) (b : Nat) (row : List Int) (v : Int)
    (hv0 : v ≠ 0) :
    ∀ k t, rs[t]? = some row → row[b]? = some v → (k + t, b, v) ∈ sparseTriples k rs := by
  induction rs with
  | nil => intro k t hrow _; simp at hrow
  | cons r rs ih =>
    intro k t hrow hb
    cases t with
    | zero =>
      have hr : r = row := by simpa using hrow
      rw [Nat.add_zero, sparseTriples, List.mem_append]
      left
      have h1 := rowTriples_mem k row v hv0 0 b hb
      rw [Nat.zero_add] at h1
      exact hr ▸ h1
    | succ t0 =>
      rw [sparseTriples, List.mem_append]
      right
      have h1 := ih (k + 1) t0 (by simpa using hrow) hb
      have hsh : (k + 1) + t0 = k + (t0 + 1) := by omega
      exact hsh ▸ h1

/-- C9: `dense_matrix()` and `sparse_matrix()` of a non-empty column
with equal-length decoded numeric rows represent the same mathematical
matrix: both succeed with the same `(n_rows, n_cols)` shape, every entry
`(i, j)` of the dense array equals the corresponding entry of the
coordinate-list matrix, both equal the `j`-th scalar of the `i`-th
decoded row, and a coordinate triple is recorded exactly for the nonzero
cells. -/
theorem dense_sparse_agree (rows : List (List Int)) (n : Nat) (hne : rows ≠ [])
    (hlen : ∀ r ∈ rows, r.length = n) :
    dense_matrix rows = .ok (.dense rows (rows.length, n)) ∧
    sparse_matrix rows = .ok (.sparse (sparseTriples 0 rows) (rows.length, n)) ∧
    (∀ i j, denseEntry rows i j = cooEntry (sparseTriples 0 rows) i j) ∧
    (∀ i j, cooEntry (sparseTriples 0 rows) i j = (rows.getD i []).getD j 0) ∧
    (∀ a b v, (a, b, v) ∈ sparseTriples 0 rows ↔
      (v ≠ 0 ∧ ∃ row, rows[a]? = some row ∧ row[b]? = some v)) := by
  have hl0 : rows.length ≠ 0 := fun h0 => hne (List.length_eq_zero.mp h0)
  have hhead : (rows.headD []).length = n := by
    cases rows with
    | nil => exact absurd rfl hne
    | cons r rs => exact hlen r (by simp)
  have hentry : ∀ i j, cooEntry (sparseTriples 0 rows) i j = (rows.getD i []).getD j 0 := by
    intro i j
    have h1 := cooEntry_sparseTriples j rows 0 i
    rw [Nat.zero_add] at h1
    exact h1
  refine ⟨by rw [dense_matrix, if_neg hl0, hhead], by rw [sparse_matrix, if_neg hl0, hhead],
    fun i j => (hentry i j).symm, hentry, ?_⟩
  intro a b v
  constructor
  · intro hmem
    obtain ⟨hv, t, row, ha, hrow, hb⟩ := mem_sparseTriples rows a b v 0 hmem
    exact ⟨hv, row, by rw [ha, Nat.zero_add] at *; exact hrow, hb⟩
  · rintro ⟨hv, row, hrow, hb⟩
    have h1 := sparseTriples_mem rows b row v hv 0 a hrow hb
    rw [Nat.zero_add] at h1
    exact h1

theorem dense_sparse_agree_witness :
    dense_matrix [[1, 0], [0, 2]] = .ok (.dense [[1, 0], [0, 2]] (2, 2)) ∧
    sparse_matrix [[1, 0], [0, 2]]
      = .ok (.sparse (sparseTriples 0 [[1, 0], [0, 2]]) (2, 2)) ∧
    denseEntry [[1, 0], [0, 2]] 1 1 = cooEntry (sparseTriples 0 [[1, 0], [0, 2]]) 1 1 :=
  ⟨(dense_sparse_agree [[1, 0], [0, 2]] 2 (by decide) (by decide)).1,
   (dense_sparse_agree [[1, 0], [0, 2]] 2 (by decide) (by decide)).2.1,
   (dense_sparse_agree [[1, 0], [0, 2]] 2 (by decide) (by decide)).2.2.1 1 1⟩

end Ttm
